import Mathlib

/- A shallow embedding of the sqlx-transaction-manager crate
(src/context.rs, src/error.rs, src/executor.rs).

The single database connection is modelled by `DbState`: a list of durably
committed statements plus, when a transaction is open, the list of statements
pending in that transaction together with its savepoint stack.  The stack is
newest-first; each savepoint records the pending length at its creation, and
setting a savepoint whose name already exists replaces the old one, as MySQL
does.  Caller statements are abstracted as natural numbers.  Statement failure
(network, SQL error, ...) is modelled by an oracle `o : Nat → Bool` consulted
on a per-statement clock: the statement attempted at clock `c` fails with the
abstract sqlx error `c` when `o c = true`, and also when it is semantically
invalid (e.g. releasing a missing savepoint).  Every operation returns its
result, the final state, and the list of wire-level statements it attempted,
in order.  Bodies passed to the runners are represented by the program type
`Prog`: through a `&mut TransactionContext` a body can only issue queries via
`as_executor` and call `with_nested_transaction` (it cannot commit, roll back
or consume the context, which all need the context by value), and it finally
returns a value or an error. -/

namespace SqlxTxm

/-- Fixed savepoint name used by `with_nested_transaction` (executor.rs:205). -/
def spName : String :=
  "nested_tx"

/-- Wire-level statements this layer can attempt on the connection. -/
inductive Action where
  | beginTx : Action
  | query : Nat → Action
  | commitTx : Action
  | rollbackTx : Action
  | savepoint : String → Action
  | release : String → Action
  | rollbackTo : String → Action
  deriving DecidableEq, Repr

/-- State of the one connection: committed statements, and (when a transaction
is open) the pending statements with the savepoint stack (newest first, each
entry recording the pending length at its creation). -/
structure DbState where
  committed : List Nat
  pending : Option (List Nat × List (String × Nat))
  deriving DecidableEq, Repr

/-- Set a savepoint: MySQL deletes an existing savepoint of the same name and
sets a new one. -/
def spReplace (n : String) (k : Nat) (sps : List (String × Nat)) :
    List (String × Nat) :=
  (n, k) :: sps.filter (fun q => q.1 ≠ n)

/-- Release a savepoint: drop the newest entry named `n` and every entry set
after it; fails (returns `none`) when no such savepoint exists. -/
def spReleaseL (n : String) : List (String × Nat) → Option (List (String × Nat))
  | [] => none
  | (m, _) :: rest => if m = n then some rest else spReleaseL n rest

/-- Find the newest savepoint named `n`: returns its recorded pending length
and the stack after a rollback to it (the found entry is kept, newer entries
are deleted); fails when no such savepoint exists. -/
def spFind (n : String) : List (String × Nat) → Option (Nat × List (String × Nat))
  | [] => none
  | (m, k) :: rest => if m = n then some (k, (m, k) :: rest) else spFind n rest

/-- Meaning of one successfully executed wire-level statement; `none` means the
statement is semantically invalid and errors on the server. -/
def applyStmt : DbState → Action → Option DbState
  | db, Action.beginTx =>
    match db.pending with
    | none => some ⟨db.committed, some ([], [])⟩
    | some _ => none
  | db, Action.query q =>
    match db.pending with
    | some (p, sps) => some ⟨db.committed, some (p ++ [q], sps)⟩
    | none => some ⟨db.committed ++ [q], none⟩
  | db, Action.commitTx =>
    match db.pending with
    | some (p, _) => some ⟨db.committed ++ p, none⟩
    | none => some db
  | db, Action.rollbackTx => some ⟨db.committed, none⟩
  | db, Action.savepoint n =>
    match db.pending with
    | some (p, sps) => some ⟨db.committed, some (p, spReplace n p.length sps)⟩
    | none => none
  | db, Action.release n =>
    match db.pending with
    | some (p, sps) => (spReleaseL n sps).map (fun sps1 => ⟨db.committed, some (p, sps1)⟩)
    | none => none
  | db, Action.rollbackTo n =>
    match db.pending with
    | some (p, sps) => (spFind n sps).map (fun r => ⟨db.committed, some (p.take r.1, r.2)⟩)
    | none => none

/-- Execution state: the connection plus the statement clock used by the
failure oracle. -/
structure ExecState where
  db : DbState
  clock : Nat
  deriving DecidableEq, Repr

/-- Attempt one wire-level statement.  The attempt is always recorded in the
returned trace; it fails with abstract sqlx error `s.clock` when the oracle
says so or when the statement is semantically invalid, leaving the connection
state unchanged. -/
def runStmt (o : Nat → Bool) (a : Action) (s : ExecState) :
    Except Nat Unit × ExecState × List Action :=
  if o s.clock then (Except.error s.clock, ⟨s.db, s.clock + 1⟩, [a])
  else
    match applyStmt s.db a with
    | some db1 => (Except.ok (), ⟨db1, s.clock + 1⟩, [a])
    | none => (Except.error s.clock, ⟨s.db, s.clock + 1⟩, [a])

/-- Error type of the crate (error.rs:2–11): a database error from sqlx
(abstracted by its clock number) or use of an already consumed transaction. -/
inductive Error where
  | Database : Nat → Error
  | AlreadyConsumed : Error
  deriving DecidableEq, Repr

/-- TransactionContext (context.rs:32–34): holds the transaction handle while
active, `none` once consumed.  The sqlx `Transaction` itself lives in the
`DbState`, so the handle carries no further data. -/
structure TransactionContext where
  tx : Option Unit
  deriving DecidableEq, Repr

/-- TransactionContext::begin (context.rs:57–61): `pool.begin()` is one
wire-level begin statement; on success the context holds `some` handle, and a
sqlx error is wrapped into `Error::Database` by the `?` conversion. -/
def TransactionContext.begin (o : Nat → Bool) (s : ExecState) :
    Except Error TransactionContext × ExecState × List Action :=
  match runStmt o Action.beginTx s with
  | (Except.ok _, s1, δ) => (Except.ok ⟨some ()⟩, s1, δ)
  | (Except.error n, s1, δ) => (Except.error (Error.Database n), s1, δ)

/-- TransactionContext::commit (context.rs:85–90): `if let Some(tx) =
self.tx.take() { tx.commit().await?; } Ok(())` — with a live handle it attempts
one commit statement, with an already consumed handle it is a silent no-op. -/
def TransactionContext.commit (o : Nat → Bool) (ctx : TransactionContext)
    (s : ExecState) : Except Error Unit × ExecState × List Action :=
  match ctx.tx with
  | some _ =>
    match runStmt o Action.commitTx s with
    | (Except.ok _, s1, δ) => (Except.ok (), s1, δ)
    | (Except.error n, s1, δ) => (Except.error (Error.Database n), s1, δ)
  | none => (Except.ok (), s, [])

/-- TransactionContext::rollback (context.rs:115–120): same shape as commit
with a rollback statement. -/
def TransactionContext.rollback (o : Nat → Bool) (ctx : TransactionContext)
    (s : ExecState) : Except Error Unit × ExecState × List Action :=
  match ctx.tx with
  | some _ =>
    match runStmt o Action.rollbackTx s with
    | (Except.ok _, s1, δ) => (Except.ok (), s1, δ)
    | (Except.error n, s1, δ) => (Except.error (Error.Database n), s1, δ)
  | none => (Except.ok (), s, [])

/-- TransactionContext::as_executor (context.rs:151–156): yields the executor
handle of the live connection; the expect panic — whose message, Transaction
has already been consumed, matches the AlreadyConsumed display text — on a
consumed context is modelled as the `Error::AlreadyConsumed` value. -/
def TransactionContext.as_executor (ctx : TransactionContext) :
    Except Error Unit :=
  match ctx.tx with
  | some _ => Except.ok ()
  | none => Except.error Error.AlreadyConsumed

/-- TransactionContext::into_inner (context.rs:183–187): takes the raw
transaction handle; the panic on a consumed context is modelled as
`Error::AlreadyConsumed`. -/
def TransactionContext.into_inner (ctx : TransactionContext) :
    Except Error Unit :=
  match ctx.tx with
  | some t => Except.ok t
  | none => Except.error Error.AlreadyConsumed

/-- A body passed to `with_transaction` or `with_nested_transaction`.  Holding
only a `&mut TransactionContext`, a body can issue queries through
`as_executor` (with `?` on their result), run nested units of work and branch
on their outcome, and finally return a value (`ret`) or an error (`fail`). -/
inductive Prog where
  | ret : Nat → Prog
  | fail : Error → Prog
  | query : Nat → Prog → Prog
  | nested : Prog → Prog → Prog → Prog
  deriving Repr

/-- Body of with_nested_transaction (executor.rs:196–225), abstracted over the
interpretation of the caller-supplied function: issue `SAVEPOINT nested_tx`
(propagating its error with `?`), run the body, then on success issue `RELEASE
SAVEPOINT nested_tx` (propagating its error with `?`) and on failure issue
`ROLLBACK TO SAVEPOINT nested_tx`, discard that result (`let _ = ...`), and
return the body's error.  Each statement goes through `tx_ctx.as_executor()`,
whose panic on a consumed context is modelled as an `AlreadyConsumed` error
result; it never fires for a live context. -/
def nestedRun (o : Nat → Bool)
    (body : ExecState → Except Error Nat × ExecState × List Action)
    (tx_ctx : TransactionContext) (s : ExecState) :
    Except Error Nat × ExecState × List Action :=
  match TransactionContext.as_executor tx_ctx with
  | Except.error e => (Except.error e, s, [])
  | Except.ok _ =>
    match runStmt o (Action.savepoint spName) s with
    | (Except.error n, s1, δ0) => (Except.error (Error.Database n), s1, δ0)
    | (Except.ok _, s1, δ0) =>
      match body s1 with
      | (Except.ok v, s2, δ1) =>
        match TransactionContext.as_executor tx_ctx with
        | Except.error e => (Except.error e, s2, δ0 ++ δ1)
        | Except.ok _ =>
          match runStmt o (Action.release spName) s2 with
          | (Except.error n, s3, δ2) =>
            (Except.error (Error.Database n), s3, δ0 ++ δ1 ++ δ2)
          | (Except.ok _, s3, δ2) => (Except.ok v, s3, δ0 ++ δ1 ++ δ2)
      | (Except.error e, s2, δ1) =>
        match TransactionContext.as_executor tx_ctx with
        | Except.error e2 => (Except.error e2, s2, δ0 ++ δ1)
        | Except.ok _ =>
          match runStmt o (Action.rollbackTo spName) s2 with
          | (_, s3, δ2) => (Except.error e, s3, δ0 ++ δ1 ++ δ2)

/-- Interpretation of a body program against the context handle it was given.
A `query q k` step is `sqlx::query(q).execute(ctx.as_executor()).await?`
followed by the rest of the body; a `nested inner onOk onErr` step runs
`with_nested_transaction` (see `nestedRun`) on the same handle and continues
with one of the two continuations depending on the returned result. -/
def interp (o : Nat → Bool) :
    Prog → TransactionContext → ExecState →
    Except Error Nat × ExecState × List Action
  | Prog.ret v, _, s => (Except.ok v, s, [])
  | Prog.fail e, _, s => (Except.error e, s, [])
  | Prog.query q k, ctx, s =>
    match TransactionContext.as_executor ctx with
    | Except.error e => (Except.error e, s, [])
    | Except.ok _ =>
      match runStmt o (Action.query q) s with
      | (Except.error n, s1, δ0) => (Except.error (Error.Database n), s1, δ0)
      | (Except.ok _, s1, δ0) =>
        match interp o k ctx s1 with
        | (r, s2, δ1) => (r, s2, δ0 ++ δ1)
  | Prog.nested inner onOk onErr, ctx, s =>
    match nestedRun o (fun s1 => interp o inner ctx s1) ctx s with
    | (Except.ok _, s1, δ0) =>
      match interp o onOk ctx s1 with
      | (r, s2, δ1) => (r, s2, δ0 ++ δ1)
    | (Except.error _, s1, δ0) =>
      match interp o onErr ctx s1 with
      | (r, s2, δ1) => (r, s2, δ0 ++ δ1)

/-- with_nested_transaction (executor.rs:196–225): run the nested-transaction
protocol with the caller-supplied function interpreted on the same context
handle. -/
def with_nested_transaction (o : Nat → Bool) (inner : Prog)
    (tx_ctx : TransactionContext) (s : ExecState) :
    Except Error Nat × ExecState × List Action :=
  nestedRun o (fun s1 => interp o inner tx_ctx s1) tx_ctx s

/-- with_transaction (executor.rs:109–130): begin (`?` on failure), run the
body on the fresh context; on body success commit with `?` and return the
value, on body failure `let _ = tx_ctx.rollback().await;` and return the
body's error. -/
def with_transaction (o : Nat → Bool) (f : Prog) (s : ExecState) :
    Except Error Nat × ExecState × List Action :=
  match TransactionContext.begin o s with
  | (Except.error e, s1, δ0) => (Except.error e, s1, δ0)
  | (Except.ok tx_ctx, s1, δ0) =>
    match interp o f tx_ctx s1 with
    | (Except.ok v, s2, δ1) =>
      match TransactionContext.commit o tx_ctx s2 with
      | (Except.error e, s3, δ2) => (Except.error e, s3, δ0 ++ δ1 ++ δ2)
      | (Except.ok _, s3, δ2) => (Except.ok v, s3, δ0 ++ δ1 ++ δ2)
    | (Except.error e, s2, δ1) =>
      match TransactionContext.rollback o tx_ctx s2 with
      | (_, s3, δ2) => (Except.error e, s3, δ0 ++ δ1 ++ δ2)

/-- The context value produced by a successful `TransactionContext.begin`. -/
def liveCtx : TransactionContext :=
  ⟨some ()⟩

/-- State reached after a successful begin statement from a state with no open
transaction. -/
def afterBegin (s : ExecState) : ExecState :=
  ⟨⟨s.db.committed, some ([], [])⟩, s.clock + 1⟩

/-- State reached after a successful savepoint statement from a state whose
open transaction has pending data `pd`. -/
def afterSavepoint (s : ExecState) (pd : List Nat × List (String × Nat)) :
    ExecState :=
  ⟨⟨s.db.committed, some (pd.1, spReplace spName pd.1.length pd.2)⟩, s.clock + 1⟩

/-- Number of commit statements attempted in a trace. -/
def countCommits (l : List Action) : Nat :=
  (l.filter (fun a => a = Action.commitTx)).length

/-- Number of rollback statements attempted in a trace. -/
def countRollbacks (l : List Action) : Nat :=
  (l.filter (fun a => a = Action.rollbackTx)).length

/-- Terminal statements on the whole transaction (plus begin), which a body
can never issue through the API. -/
def isTerminal : Action → Bool
  | Action.beginTx => true
  | Action.commitTx => true
  | Action.rollbackTx => true
  | _ => false

/-- Statements the enclosing body issues after a nested call, executed through
the real statement semantics. -/
def execQueries (l : List Nat) (db : DbState) : DbState :=
  l.foldl (fun d q => (applyStmt d (Action.query q)).getD d) db

/-- Frame invariant for claim C4: the connection keeps its committed list
`c0`, its transaction stays open with the enclosing pending statements `p0`
still the unchanged front of the pending list, and every savepoint named `nested_tx`
records a length at least `p0.length` (so no rollback-to-savepoint can cut
into `p0`). -/
def Inv (p0 c0 : List Nat) (db : DbState) : Prop :=
  db.committed = c0 ∧
  ∃ extra sps, db.pending = some (p0 ++ extra, sps) ∧
    ∀ q ∈ sps, q.1 = spName → p0.length ≤ q.2

/-- A trace containing no begin, commit or rollback statement. -/
def NoTerm (δ : List Action) : Prop :=
  ∀ a ∈ δ, isTerminal a = false

theorem runStmt_trace (o : Nat → Bool) (a : Action) (s : ExecState) :
    (runStmt o a s).2.2 = [a] := by
  unfold runStmt
  split
  · rfl
  · split <;> rfl

theorem runStmt_clock (o : Nat → Bool) (a : Action) (s : ExecState) :
    (runStmt o a s).2.1.clock = s.clock + 1 := by
  unfold runStmt
  split
  · rfl
  · split <;> rfl

theorem as_executor_live {ctx : TransactionContext} (h : ctx.tx = some ()) :
    TransactionContext.as_executor ctx = Except.ok () := by
  unfold TransactionContext.as_executor
  rw [h]

theorem begin_eq {o : Nat → Bool} {s : ExecState} (hp : s.db.pending = none)
    (hb : o s.clock = false) :
    TransactionContext.begin o s
      = (Except.ok liveCtx, afterBegin s, [Action.beginTx]) := by
  simp [TransactionContext.begin, runStmt, applyStmt, hb, hp, liveCtx, afterBegin]

theorem savepoint_eq {o : Nat → Bool} {s : ExecState}
    {pd : List Nat × List (String × Nat)} (hp : s.db.pending = some pd)
    (hb : o s.clock = false) :
    runStmt o (Action.savepoint spName) s
      = (Except.ok (), afterSavepoint s pd, [Action.savepoint spName]) := by
  obtain ⟨p, sps⟩ := pd
  simp [runStmt, applyStmt, hb, hp, afterSavepoint]

theorem countCommits_append (l1 l2 : List Action) :
    countCommits (l1 ++ l2) = countCommits l1 + countCommits l2 := by
  simp [countCommits, List.filter_append]

theorem countRollbacks_append (l1 l2 : List Action) :
    countRollbacks (l1 ++ l2) = countRollbacks l1 + countRollbacks l2 := by
  simp [countRollbacks, List.filter_append]

theorem counts_zero {δ : List Action} (h : NoTerm δ) :
    countCommits δ = 0 ∧ countRollbacks δ = 0 := by
  constructor
  · have : Action.commitTx ∉ δ := by
      intro hmem
      have := h _ hmem
      simp [isTerminal] at this
    simp only [countCommits, List.length_eq_zero]
    rw [List.filter_eq_nil_iff]
    intro a ha
    simp only [decide_eq_true_eq]
    intro hEq
    exact this (hEq ▸ ha)
  · have : Action.rollbackTx ∉ δ := by
      intro hmem
      have := h _ hmem
      simp [isTerminal] at this
    simp only [countRollbacks, List.length_eq_zero]
    rw [List.filter_eq_nil_iff]
    intro a ha
    simp only [decide_eq_true_eq]
    intro hEq
    exact this (hEq ▸ ha)

theorem NoTerm_nil : NoTerm [] := by
  intro a ha
  simp at ha

theorem NoTerm_append {l1 l2 : List Action} (h1 : NoTerm l1) (h2 : NoTerm l2) :
    NoTerm (l1 ++ l2) := by
  intro a ha
  rcases List.mem_append.mp ha with h | h
  · exact h1 a h
  · exact h2 a h

theorem NoTerm_runStmt_query (o : Nat → Bool) (q : Nat) (s : ExecState) :
    NoTerm (runStmt o (Action.query q) s).2.2 := by
  rw [runStmt_trace]
  intro a ha
  simp at ha
  rw [ha]
  rfl

theorem NoTerm_runStmt_savepoint (o : Nat → Bool) (n : String) (s : ExecState) :
    NoTerm (runStmt o (Action.savepoint n) s).2.2 := by
  rw [runStmt_trace]
  intro a ha
  simp at ha
  rw [ha]
  rfl

theorem NoTerm_runStmt_release (o : Nat → Bool) (n : String) (s : ExecState) :
    NoTerm (runStmt o (Action.release n) s).2.2 := by
  rw [runStmt_trace]
  intro a ha
  simp at ha
  rw [ha]
  rfl

theorem NoTerm_runStmt_rollbackTo (o : Nat → Bool) (n : String) (s : ExecState) :
    NoTerm (runStmt o (Action.rollbackTo n) s).2.2 := by
  rw [runStmt_trace]
  intro a ha
  simp at ha
  rw [ha]
  rfl

theorem NoTerm_nestedRun (o : Nat → Bool)
    (body : ExecState → Except Error Nat × ExecState × List Action)
    (ctx : TransactionContext) (s : ExecState)
    (hbody : ∀ s1, NoTerm (body s1).2.2) :
    NoTerm (nestedRun o body ctx s).2.2 := by
  unfold nestedRun
  cases hex : TransactionContext.as_executor ctx with
  | error e => exact NoTerm_nil
  | ok u =>
    rcases h0 : runStmt o (Action.savepoint spName) s with ⟨r0, s1, δ0⟩
    have hδ0 : NoTerm δ0 := by
      have := NoTerm_runStmt_savepoint o spName s
      rw [h0] at this
      exact this
    cases r0 with
    | error n => exact hδ0
    | ok u0 =>
      rcases h1 : body s1 with ⟨r1, s2, δ1⟩
      have hδ1 : NoTerm δ1 := by
        have := hbody s1
        rw [h1] at this
        exact this
      cases r1 with
      | ok v =>
        rcases h2 : runStmt o (Action.release spName) s2 with ⟨r2, s3, δ2⟩
        have hδ2 : NoTerm δ2 := by
          have := NoTerm_runStmt_release o spName s2
          rw [h2] at this
          exact this
        simp only [h1, h2]
        cases r2 <;>
          exact NoTerm_append (NoTerm_append hδ0 hδ1) hδ2
      | error e =>
        rcases h2 : runStmt o (Action.rollbackTo spName) s2 with ⟨r2, s3, δ2⟩
        have hδ2 : NoTerm δ2 := by
          have := NoTerm_runStmt_rollbackTo o spName s2
          rw [h2] at this
          exact this
        simp only [h1, h2]
        exact NoTerm_append (NoTerm_append hδ0 hδ1) hδ2

theorem NoTerm_interp (o : Nat → Bool) :
    ∀ (p : Prog) (ctx : TransactionContext) (s : ExecState),
    NoTerm (interp o p ctx s).2.2 := by
  intro p
  induction p with
  | ret v =>
    intro ctx s
    exact NoTerm_nil
  | fail e =>
    intro ctx s
    exact NoTerm_nil
  | query q k ih =>
    intro ctx s
    unfold interp
    cases hex : TransactionContext.as_executor ctx with
    | error e => exact NoTerm_nil
    | ok u =>
      rcases h0 : runStmt o (Action.query q) s with ⟨r0, s1, δ0⟩
      have hδ0 : NoTerm δ0 := by
        have := NoTerm_runStmt_query o q s
        rw [h0] at this
        exact this
      cases r0 with
      | error n => exact hδ0
      | ok u0 =>
        rcases h1 : interp o k ctx s1 with ⟨r1, s2, δ1⟩
        have hδ1 : NoTerm δ1 := by
          have := ih ctx s1
          rw [h1] at this
          exact this
        simp only [h1]
        exact NoTerm_append hδ0 hδ1
  | nested inner onOk onErr ih1 ih2 ih3 =>
    intro ctx s
    unfold interp
    have hn := NoTerm_nestedRun o (fun s1 => interp o inner ctx s1) ctx s
      (fun s1 => ih1 ctx s1)
    rcases h0 : nestedRun o (fun s1 => interp o inner ctx s1) ctx s with ⟨r0, s1, δ0⟩
    have hδ0 : NoTerm δ0 := by
      rw [h0] at hn
      exact hn
    cases r0 with
    | ok v =>
      rcases h1 : interp o onOk ctx s1 with ⟨r1, s2, δ1⟩
      have hδ1 : NoTerm δ1 := by
        have := ih2 ctx s1
        rw [h1] at this
        exact this
      simp only [h1]
      exact NoTerm_append hδ0 hδ1
    | error e =>
      rcases h1 : interp o onErr ctx s1 with ⟨r1, s2, δ1⟩
      have hδ1 : NoTerm δ1 := by
        have := ih3 ctx s1
        rw [h1] at this
        exact this
      simp only [h1]
      exact NoTerm_append hδ0 hδ1

theorem spReplace_mem (n : String) (k : Nat) (sps : List (String × Nat))
    (q : String × Nat) (hq : q ∈ spReplace n k sps) (hn : q.1 = n) : q.2 = k := by
  simp only [spReplace, List.mem_cons, List.mem_filter] at hq
  rcases hq with h | ⟨_, hne⟩
  · rw [h]
  · exfalso
    simp only [decide_eq_true_eq] at hne
    exact hne hn

theorem spReleaseL_sub (n : String) :
    ∀ (sps sps1 : List (String × Nat)), spReleaseL n sps = some sps1 →
      ∀ q ∈ sps1, q ∈ sps := by
  intro sps
  induction sps with
  | nil =>
    intro sps1 h
    simp [spReleaseL] at h
  | cons hd tl ih =>
    intro sps1 h q hq
    obtain ⟨m, k⟩ := hd
    simp only [spReleaseL] at h
    by_cases hm : m = n
    · rw [if_pos hm] at h
      have h2 := Option.some.inj h
      subst h2
      exact List.mem_cons_of_mem _ hq
    · rw [if_neg hm] at h
      exact List.mem_cons_of_mem _ (ih sps1 h q hq)

theorem spFind_spec (n : String) :
    ∀ (sps : List (String × Nat)) (k : Nat) (sps1 : List (String × Nat)),
      spFind n sps = some (k, sps1) →
      (n, k) ∈ sps ∧ ∀ q ∈ sps1, q ∈ sps := by
  intro sps
  induction sps with
  | nil =>
    intro k sps1 h
    simp [spFind] at h
  | cons hd tl ih =>
    intro k sps1 h
    obtain ⟨m, j⟩ := hd
    simp only [spFind] at h
    by_cases hm : m = n
    · rw [if_pos hm] at h
      have h2 := Option.some.inj h
      have hk : j = k := congrArg Prod.fst h2
      have hs : (m, j) :: tl = sps1 := congrArg Prod.snd h2
      subst hk
      subst hm
      rw [← hs]
      exact ⟨List.mem_cons_self _ _, fun q hq => hq⟩
    · rw [if_neg hm] at h
      obtain ⟨hmem, hsub⟩ := ih k sps1 h
      exact ⟨List.mem_cons_of_mem _ hmem,
        fun q hq => List.mem_cons_of_mem _ (hsub q hq)⟩

theorem Inv_runStmt (p0 c0 : List Nat) (o : Nat → Bool) (a : Action)
    (s : ExecState) (h : Inv p0 c0 s.db)
    (ha : ∀ db1, applyStmt s.db a = some db1 → Inv p0 c0 db1) :
    Inv p0 c0 ((runStmt o a s).2.1).db := by
  unfold runStmt
  split
  · exact h
  · split
    · next db1 heq => exact ha db1 heq
    · exact h

theorem Inv_applyStmt_query (p0 c0 : List Nat) (db db1 : DbState) (q : Nat)
    (h : Inv p0 c0 db) (heq : applyStmt db (Action.query q) = some db1) :
    Inv p0 c0 db1 := by
  obtain ⟨hc, extra, sps, hp, hsp⟩ := h
  simp only [applyStmt, hp] at heq
  cases heq
  exact ⟨hc, extra ++ [q], sps, by simp, hsp⟩

theorem Inv_applyStmt_savepoint (p0 c0 : List Nat) (db db1 : DbState)
    (n : String) (h : Inv p0 c0 db)
    (heq : applyStmt db (Action.savepoint n) = some db1) :
    Inv p0 c0 db1 := by
  obtain ⟨hc, extra, sps, hp, hsp⟩ := h
  simp only [applyStmt, hp] at heq
  cases heq
  refine ⟨hc, extra, spReplace n (p0 ++ extra).length sps, rfl, ?_⟩
  intro q hq hqn
  simp only [spReplace, List.mem_cons, List.mem_filter] at hq
  rcases hq with rfl | ⟨hmem, _⟩
  · simp only [List.length_append]
    omega
  · exact hsp q hmem hqn

theorem Inv_applyStmt_release (p0 c0 : List Nat) (db db1 : DbState)
    (n : String) (h : Inv p0 c0 db)
    (heq : applyStmt db (Action.release n) = some db1) :
    Inv p0 c0 db1 := by
  obtain ⟨hc, extra, sps, hp, hsp⟩ := h
  simp only [applyStmt, hp] at heq
  rcases hrel : spReleaseL n sps with _ | sps1
  · rw [hrel] at heq
    simp at heq
  · rw [hrel] at heq
    simp only [Option.map_some'] at heq
    cases heq
    exact ⟨hc, extra, sps1, rfl,
      fun q hq hqn => hsp q (spReleaseL_sub n sps sps1 hrel q hq) hqn⟩

theorem Inv_applyStmt_rollbackTo (p0 c0 : List Nat) (db db1 : DbState)
    (h : Inv p0 c0 db)
    (heq : applyStmt db (Action.rollbackTo spName) = some db1) :
    Inv p0 c0 db1 := by
  obtain ⟨hc, extra, sps, hp, hsp⟩ := h
  simp only [applyStmt, hp] at heq
  rcases hf : spFind spName sps with _ | ⟨k, sps1⟩
  · rw [hf] at heq
    simp at heq
  · rw [hf] at heq
    simp only [Option.map_some'] at heq
    cases heq
    obtain ⟨hmem, hsub⟩ := spFind_spec spName sps k sps1 hf
    have hk : p0.length ≤ k := hsp (spName, k) hmem rfl
    have htake : (p0 ++ extra).take k = p0 ++ extra.take (k - p0.length) := by
      rw [List.take_append_eq_append_take]
      congr 1
      exact List.take_of_length_le hk
    refine ⟨hc, extra.take (k - p0.length), sps1, ?_,
      fun q hq hqn => hsp q (hsub q hq) hqn⟩
    rw [htake]

theorem Inv_nestedRun (o : Nat → Bool)
    (body : ExecState → Except Error Nat × ExecState × List Action)
    (ctx : TransactionContext) (s : ExecState) (p0 c0 : List Nat)
    (hbody : ∀ s1, Inv p0 c0 s1.db → Inv p0 c0 ((body s1).2.1).db)
    (h : Inv p0 c0 s.db) : Inv p0 c0 ((nestedRun o body ctx s).2.1).db := by
  unfold nestedRun
  cases hex : TransactionContext.as_executor ctx with
  | error e => exact h
  | ok u =>
    rcases h0 : runStmt o (Action.savepoint spName) s with ⟨r0, s1, δ0⟩
    have hs1 : Inv p0 c0 s1.db := by
      have := Inv_runStmt p0 c0 o (Action.savepoint spName) s h
        (fun db1 heq => Inv_applyStmt_savepoint p0 c0 s.db db1 spName h heq)
      rw [h0] at this
      exact this
    cases r0 with
    | error n => exact hs1
    | ok u0 =>
      rcases h1 : body s1 with ⟨r1, s2, δ1⟩
      have hs2 : Inv p0 c0 s2.db := by
        have := hbody s1 hs1
        rw [h1] at this
        exact this
      cases r1 with
      | ok v =>
        rcases h2 : runStmt o (Action.release spName) s2 with ⟨r2, s3, δ2⟩
        have hs3 : Inv p0 c0 s3.db := by
          have := Inv_runStmt p0 c0 o (Action.release spName) s2 hs2
            (fun db1 heq => Inv_applyStmt_release p0 c0 s2.db db1 spName hs2 heq)
          rw [h2] at this
          exact this
        simp only [h1, h2]
        cases r2 <;> exact hs3
      | error e =>
        rcases h2 : runStmt o (Action.rollbackTo spName) s2 with ⟨r2, s3, δ2⟩
        have hs3 : Inv p0 c0 s3.db := by
          have := Inv_runStmt p0 c0 o (Action.rollbackTo spName) s2 hs2
            (fun db1 heq => Inv_applyStmt_rollbackTo p0 c0 s2.db db1 hs2 heq)
          rw [h2] at this
          exact this
        simp only [h1, h2]
        exact hs3

theorem Inv_interp (o : Nat → Bool) :
    ∀ (p : Prog) (ctx : TransactionContext) (s : ExecState) (p0 c0 : List Nat),
      Inv p0 c0 s.db → Inv p0 c0 ((interp o p ctx s).2.1).db := by
  intro p
  induction p with
  | ret v =>
    intro ctx s p0 c0 h
    exact h
  | fail e =>
    intro ctx s p0 c0 h
    exact h
  | query q k ih =>
    intro ctx s p0 c0 h
    unfold interp
    cases hex : TransactionContext.as_executor ctx with
    | error e => exact h
    | ok u =>
      rcases h0 : runStmt o (Action.query q) s with ⟨r0, s1, δ0⟩
      have hs1 : Inv p0 c0 s1.db := by
        have := Inv_runStmt p0 c0 o (Action.query q) s h
          (fun db1 heq => Inv_applyStmt_query p0 c0 s.db db1 q h heq)
        rw [h0] at this
        exact this
      cases r0 with
      | error n => exact hs1
      | ok u0 =>
        rcases h1 : interp o k ctx s1 with ⟨r1, s2, δ1⟩
        have hs2 : Inv p0 c0 s2.db := by
          have := ih ctx s1 p0 c0 hs1
          rw [h1] at this
          exact this
        simp only [h1]
        exact hs2
  | nested inner onOk onErr ih1 ih2 ih3 =>
    intro ctx s p0 c0 h
    unfold interp
    have hn := Inv_nestedRun o (fun s1 => interp o inner ctx s1) ctx s p0 c0
      (fun s1 hs1 => ih1 ctx s1 p0 c0 hs1) h
    rcases h0 : nestedRun o (fun s1 => interp o inner ctx s1) ctx s with ⟨r0, s1, δ0⟩
    have hs1 : Inv p0 c0 s1.db := by
      rw [h0] at hn
      exact hn
    cases r0 with
    | ok v =>
      rcases h1 : interp o onOk ctx s1 with ⟨r1, s2, δ1⟩
      have hs2 : Inv p0 c0 s2.db := by
        have := ih2 ctx s1 p0 c0 hs1
        rw [h1] at this
        exact this
      simp only [h1]
      exact hs2
    | error e =>
      rcases h1 : interp o onErr ctx s1 with ⟨r1, s2, δ1⟩
      have hs2 : Inv p0 c0 s2.db := by
        have := ih3 ctx s1 p0 c0 hs1
        rw [h1] at this
        exact this
      simp only [h1]
      exact hs2

theorem execQueries_pending (later : List Nat) :
    ∀ (db : DbState) (p : List Nat) (sps : List (String × Nat)),
      db.pending = some (p, sps) →
      execQueries later db = ⟨db.committed, some (p ++ later, sps)⟩ := by
  induction later with
  | nil =>
    intro db p sps hp
    obtain ⟨c, pnd⟩ := db
    simp only at hp
    rw [hp]
    simp [execQueries]
  | cons q l ih =>
    intro db p sps hp
    have step : (applyStmt db (Action.query q)).getD db
        = ⟨db.committed, some (p ++ [q], sps)⟩ := by
      simp [applyStmt, hp]
    show execQueries l ((applyStmt db (Action.query q)).getD db) = _
    rw [step, ih ⟨db.committed, some (p ++ [q], sps)⟩ (p ++ [q]) sps rfl]
    simp [List.append_assoc]

theorem wt_eq_ok (o : Nat → Bool) (f : Prog) (s : ExecState)
    (hp : s.db.pending = none) (hb : o s.clock = false)
    (v : Nat) (s2 : ExecState) (δ : List Action)
    (h1 : interp o f liveCtx (afterBegin s) = (Except.ok v, s2, δ)) :
    with_transaction o f s =
      match runStmt o Action.commitTx s2 with
      | (Except.ok _, s3, _) =>
        (Except.ok v, s3, Action.beginTx :: δ ++ [Action.commitTx])
      | (Except.error n, s3, _) =>
        (Except.error (Error.Database n), s3,
          Action.beginTx :: δ ++ [Action.commitTx]) := by
  unfold with_transaction
  rw [begin_eq hp hb]
  simp only [h1]
  simp only [TransactionContext.commit, liveCtx]
  rcases h2 : runStmt o Action.commitTx s2 with ⟨r2, s3, δ2⟩
  have hδ2 : δ2 = [Action.commitTx] := by
    have := runStmt_trace o Action.commitTx s2
    rw [h2] at this
    exact this
  subst hδ2
  cases r2 <;> simp

theorem wt_eq_err (o : Nat → Bool) (f : Prog) (s : ExecState)
    (hp : s.db.pending = none) (hb : o s.clock = false)
    (e : Error) (s2 : ExecState) (δ : List Action)
    (h1 : interp o f liveCtx (afterBegin s) = (Except.error e, s2, δ)) :
    with_transaction o f s =
      (Except.error e, (runStmt o Action.rollbackTx s2).2.1,
        Action.beginTx :: δ ++ [Action.rollbackTx]) := by
  unfold with_transaction
  rw [begin_eq hp hb]
  simp only [h1]
  simp only [TransactionContext.rollback, liveCtx]
  rcases h2 : runStmt o Action.rollbackTx s2 with ⟨r2, s3, δ2⟩
  have hδ2 : δ2 = [Action.rollbackTx] := by
    have := runStmt_trace o Action.rollbackTx s2
    rw [h2] at this
    exact this
  subst hδ2
  cases r2 <;> simp

/-- Claim C1: in every run of `with_transaction` in which begin succeeds,
exactly one terminal statement is attempted on the transaction: a body that
returns success leads to exactly one commit attempt and zero rollback
attempts, and a body that returns an error leads to exactly one rollback
attempt and zero commit attempts. -/
theorem with_transaction_one_terminal (o : Nat → Bool) (f : Prog)
    (s : ExecState) (hp : s.db.pending = none) (hb : o s.clock = false) :
    (∀ v s2 δ, interp o f liveCtx (afterBegin s) = (Except.ok v, s2, δ) →
      countCommits (with_transaction o f s).2.2 = 1
        ∧ countRollbacks (with_transaction o f s).2.2 = 0)
    ∧ (∀ e s2 δ, interp o f liveCtx (afterBegin s) = (Except.error e, s2, δ) →
      countRollbacks (with_transaction o f s).2.2 = 1
        ∧ countCommits (with_transaction o f s).2.2 = 0) := by
  constructor
  · intro v s2 δ h1
    have hδ := NoTerm_interp o f liveCtx (afterBegin s)
    rw [h1] at hδ
    obtain ⟨hc0, hr0⟩ := counts_zero hδ
    rw [wt_eq_ok o f s hp hb v s2 δ h1]
    rcases h2 : runStmt o Action.commitTx s2 with ⟨r2, s3, δ2⟩
    have key : countCommits (Action.beginTx :: δ ++ [Action.commitTx]) = 1
        ∧ countRollbacks (Action.beginTx :: δ ++ [Action.commitTx]) = 0 := by
      constructor
      · show countCommits ([Action.beginTx] ++ (δ ++ [Action.commitTx])) = 1
        rw [countCommits_append, countCommits_append, hc0]
        rfl
      · show countRollbacks ([Action.beginTx] ++ (δ ++ [Action.commitTx])) = 0
        rw [countRollbacks_append, countRollbacks_append, hr0]
        rfl
    cases r2 <;> exact key
  · intro e s2 δ h1
    have hδ := NoTerm_interp o f liveCtx (afterBegin s)
    rw [h1] at hδ
    obtain ⟨hc0, hr0⟩ := counts_zero hδ
    rw [wt_eq_err o f s hp hb e s2 δ h1]
    constructor
    · show countRollbacks ([Action.beginTx] ++ (δ ++ [Action.rollbackTx])) = 1
      rw [countRollbacks_append, countRollbacks_append, hr0]
      rfl
    · show countCommits ([Action.beginTx] ++ (δ ++ [Action.rollbackTx])) = 0
      rw [countCommits_append, countCommits_append, hc0]
      rfl

theorem with_transaction_one_terminal_witness :
    countCommits (with_transaction (fun _ => false) (Prog.ret 7)
      ⟨⟨[], none⟩, 0⟩).2.2 = 1
    ∧ countRollbacks (with_transaction (fun _ => false) (Prog.ret 7)
      ⟨⟨[], none⟩, 0⟩).2.2 = 0 :=
  (with_transaction_one_terminal (fun _ => false) (Prog.ret 7)
    ⟨⟨[], none⟩, 0⟩ rfl rfl).1 7 (afterBegin ⟨⟨[], none⟩, 0⟩) [] rfl

/-- Claim C2: when begin succeeds and the body returns an error `e`,
`with_transaction` attempts exactly one rollback statement after the body,
discards the outcome of that attempt (the returned error is `e` for every
failure oracle, in particular when the rollback itself fails), and returns
exactly the body's error `e`. -/
theorem with_transaction_body_error_propagates (o : Nat → Bool) (f : Prog)
    (s : ExecState) (e : Error) (s2 : ExecState) (δ : List Action)
    (hp : s.db.pending = none) (hb : o s.clock = false)
    (h1 : interp o f liveCtx (afterBegin s) = (Except.error e, s2, δ)) :
    with_transaction o f s =
      (Except.error e, (runStmt o Action.rollbackTx s2).2.1,
        Action.beginTx :: δ ++ [Action.rollbackTx]) :=
  wt_eq_err o f s hp hb e s2 δ h1

theorem with_transaction_body_error_propagates_witness :
    with_transaction (fun k => decide (2 ≤ k)) (Prog.fail (Error.Database 99))
        ⟨⟨[], none⟩, 1⟩
      = (Except.error (Error.Database 99),
         (runStmt (fun k => decide (2 ≤ k)) Action.rollbackTx
           (afterBegin ⟨⟨[], none⟩, 1⟩)).2.1,
         Action.beginTx :: [] ++ [Action.rollbackTx]) :=
  with_transaction_body_error_propagates (fun k => decide (2 ≤ k))
    (Prog.fail (Error.Database 99)) ⟨⟨[], none⟩, 1⟩ (Error.Database 99)
    (afterBegin ⟨⟨[], none⟩, 1⟩) [] rfl rfl rfl

/-- Claim C3: when begin succeeds and the body returns `Ok v`, the result of
`with_transaction` is decided by the commit statement attempted at the body's
final clock: if that commit succeeds the caller gets `Ok v`, and if it fails
the commit statement's own database error reaches the caller as the returned
error. -/
theorem with_transaction_commit_outcome (o : Nat → Bool) (f : Prog)
    (s : ExecState) (v : Nat) (s2 : ExecState) (δ : List Action)
    (hp : s.db.pending = none) (hb : o s.clock = false)
    (h1 : interp o f liveCtx (afterBegin s) = (Except.ok v, s2, δ)) :
    (o s2.clock = false → (with_transaction o f s).1 = Except.ok v)
    ∧ (o s2.clock = true →
        (with_transaction o f s).1 = Except.error (Error.Database s2.clock)) := by
  have hInv0 : Inv [] s.db.committed ((interp o f liveCtx (afterBegin s)).2.1).db := by
    apply Inv_interp o f liveCtx (afterBegin s) [] s.db.committed
    exact ⟨rfl, [], [], rfl, fun q hq => absurd hq (List.not_mem_nil q)⟩
  have hInv : Inv [] s.db.committed s2.db := by
    rw [h1] at hInv0
    simpa using hInv0
  obtain ⟨hc, extra, sps, hpend, _⟩ := hInv
  simp only [List.nil_append] at hpend
  rw [wt_eq_ok o f s hp hb v s2 δ h1]
  constructor
  · intro hc2
    have : runStmt o Action.commitTx s2
        = (Except.ok (), ⟨⟨s2.db.committed ++ extra, none⟩, s2.clock + 1⟩,
           [Action.commitTx]) := by
      simp [runStmt, hc2, applyStmt, hpend]
    rw [this]
  · intro hc2
    have : runStmt o Action.commitTx s2
        = (Except.error s2.clock, ⟨s2.db, s2.clock + 1⟩, [Action.commitTx]) := by
      simp [runStmt, hc2]
    rw [this]

theorem with_transaction_commit_outcome_witness :
    (with_transaction (fun _ => false) (Prog.ret 7) ⟨⟨[], none⟩, 0⟩).1
      = Except.ok 7 :=
  (with_transaction_commit_outcome (fun _ => false) (Prog.ret 7)
    ⟨⟨[], none⟩, 0⟩ 7 (afterBegin ⟨⟨[], none⟩, 0⟩) [] rfl rfl rfl).1 rfl

theorem wnt_eq_savefail (o : Nat → Bool) (inner : Prog)
    (ctx : TransactionContext) (s : ExecState)
    (hc : ctx.tx = some ()) (hb : o s.clock = true) :
    with_nested_transaction o inner ctx s
      = (Except.error (Error.Database s.clock), ⟨s.db, s.clock + 1⟩,
         [Action.savepoint spName]) := by
  unfold with_nested_transaction nestedRun
  rw [as_executor_live hc]
  have h0 : runStmt o (Action.savepoint spName) s
      = (Except.error s.clock, ⟨s.db, s.clock + 1⟩, [Action.savepoint spName]) := by
    simp [runStmt, hb]
  rw [h0]

theorem wnt_eq_ok (o : Nat → Bool) (inner : Prog) (ctx : TransactionContext)
    (s : ExecState) (pd : List Nat × List (String × Nat)) (v : Nat)
    (s2 : ExecState) (δb : List Action)
    (hc : ctx.tx = some ()) (hp : s.db.pending = some pd) (hb : o s.clock = false)
    (h1 : interp o inner ctx (afterSavepoint s pd) = (Except.ok v, s2, δb)) :
    with_nested_transaction o inner ctx s =
      match runStmt o (Action.release spName) s2 with
      | (Except.ok _, s3, _) =>
        (Except.ok v, s3,
          Action.savepoint spName :: δb ++ [Action.release spName])
      | (Except.error n, s3, _) =>
        (Except.error (Error.Database n), s3,
          Action.savepoint spName :: δb ++ [Action.release spName]) := by
  unfold with_nested_transaction nestedRun
  rw [as_executor_live hc, savepoint_eq hp hb]
  simp only [h1]
  rcases h2 : runStmt o (Action.release spName) s2 with ⟨r2, s3, δ2⟩
  have hδ2 : δ2 = [Action.release spName] := by
    have := runStmt_trace o (Action.release spName) s2
    rw [h2] at this
    exact this
  subst hδ2
  cases r2 <;> simp

theorem wnt_eq_err (o : Nat → Bool) (inner : Prog) (ctx : TransactionContext)
    (s : ExecState) (pd : List Nat × List (String × Nat)) (e : Error)
    (s2 : ExecState) (δb : List Action)
    (hc : ctx.tx = some ()) (hp : s.db.pending = some pd) (hb : o s.clock = false)
    (h1 : interp o inner ctx (afterSavepoint s pd) = (Except.error e, s2, δb)) :
    with_nested_transaction o inner ctx s =
      (Except.error e, (runStmt o (Action.rollbackTo spName) s2).2.1,
        Action.savepoint spName :: δb ++ [Action.rollbackTo spName]) := by
  unfold with_nested_transaction nestedRun
  rw [as_executor_live hc, savepoint_eq hp hb]
  simp only [h1]
  rcases h2 : runStmt o (Action.rollbackTo spName) s2 with ⟨r2, s3, δ2⟩
  have hδ2 : δ2 = [Action.rollbackTo spName] := by
    have := runStmt_trace o (Action.rollbackTo spName) s2
    rw [h2] at this
    exact this
  subst hδ2
  cases r2 <;> simp

/-- Claim C5: a run of `with_nested_transaction` on a live context whose
savepoint statement succeeds attempts, in order and with the one fixed name
`spName` (the string nested_tx), first the savepoint statement, then the
statements of the body interpreted on the very same context handle, then on
body success exactly one release-savepoint statement and on body failure
exactly one rollback-to-savepoint statement; the two trace equations show the
runner itself issues no other statement (in particular no commit or rollback
of the whole transaction). -/
theorem with_nested_transaction_statement_order (o : Nat → Bool) (inner : Prog)
    (ctx : TransactionContext) (s : ExecState)
    (pd : List Nat × List (String × Nat))
    (hc : ctx.tx = some ()) (hp : s.db.pending = some pd)
    (hb : o s.clock = false) :
    ∀ r s2 δb, interp o inner ctx (afterSavepoint s pd) = (r, s2, δb) →
      (∀ v, r = Except.ok v → with_nested_transaction o inner ctx s =
        match runStmt o (Action.release spName) s2 with
        | (Except.ok _, s3, _) =>
          (Except.ok v, s3,
            Action.savepoint spName :: δb ++ [Action.release spName])
        | (Except.error n, s3, _) =>
          (Except.error (Error.Database n), s3,
            Action.savepoint spName :: δb ++ [Action.release spName]))
      ∧ (∀ e, r = Except.error e → with_nested_transaction o inner ctx s =
          (Except.error e, (runStmt o (Action.rollbackTo spName) s2).2.1,
            Action.savepoint spName :: δb ++ [Action.rollbackTo spName])) := by
  intro r s2 δb h1
  constructor
  · intro v hv
    rw [hv] at h1
    exact wnt_eq_ok o inner ctx s pd v s2 δb hc hp hb h1
  · intro e he
    rw [he] at h1
    exact wnt_eq_err o inner ctx s pd e s2 δb hc hp hb h1

theorem with_nested_transaction_statement_order_witness :
    with_nested_transaction (fun _ => false) (Prog.ret 3) liveCtx
        ⟨⟨[], some ([], [])⟩, 0⟩
      = (Except.ok 3, ⟨⟨[], some ([], [])⟩, 2⟩,
         [Action.savepoint spName, Action.release spName]) := by
  have h := (with_nested_transaction_statement_order (fun _ => false)
    (Prog.ret 3) liveCtx ⟨⟨[], some ([], [])⟩, 0⟩ ([], []) rfl rfl rfl
    (Except.ok 3) (afterSavepoint ⟨⟨[], some ([], [])⟩, 0⟩ ([], [])) [] rfl).1
    3 rfl
  exact h.trans rfl

/-- Claim C6: when the savepoint-creation statement itself fails, the body
function is never invoked — the run is fully determined independently of
`inner`: the only attempted statement is the savepoint statement, and the
savepoint statement's own database error is returned directly. -/
theorem with_nested_transaction_savepoint_failure (o : Nat → Bool)
    (inner : Prog) (ctx : TransactionContext) (s : ExecState)
    (hc : ctx.tx = some ()) (hb : o s.clock = true) :
    with_nested_transaction o inner ctx s
      = (Except.error (Error.Database s.clock), ⟨s.db, s.clock + 1⟩,
         [Action.savepoint spName]) :=
  wnt_eq_savefail o inner ctx s hc hb

theorem with_nested_transaction_savepoint_failure_witness :
    with_nested_transaction (fun _ => true) (Prog.ret 3) liveCtx
        ⟨⟨[], some ([], [])⟩, 0⟩
      = (Except.error (Error.Database 0), ⟨⟨[], some ([], [])⟩, 1⟩,
         [Action.savepoint spName]) :=
  with_nested_transaction_savepoint_failure (fun _ => true) (Prog.ret 3)
    liveCtx ⟨⟨[], some ([], [])⟩, 0⟩ rfl rfl

/-- Claim C7: when the body run under `with_nested_transaction` returns an
error `e`, the run returns exactly `e` for every failure oracle — in
particular also when the subsequent rollback-to-savepoint statement fails,
whose outcome is discarded. -/
theorem with_nested_transaction_suppresses_rollback_error (o : Nat → Bool)
    (inner : Prog) (ctx : TransactionContext) (s : ExecState)
    (pd : List Nat × List (String × Nat)) (e : Error) (s2 : ExecState)
    (δb : List Action)
    (hc : ctx.tx = some ()) (hp : s.db.pending = some pd)
    (hb : o s.clock = false)
    (h1 : interp o inner ctx (afterSavepoint s pd) = (Except.error e, s2, δb)) :
    (with_nested_transaction o inner ctx s).1 = Except.error e := by
  rw [wnt_eq_err o inner ctx s pd e s2 δb hc hp hb h1]

theorem with_nested_transaction_suppresses_rollback_error_witness :
    (with_nested_transaction (fun k => decide (k = 1))
      (Prog.fail (Error.Database 99)) liveCtx ⟨⟨[], some ([], [])⟩, 0⟩).1
      = Except.error (Error.Database 99) :=
  with_nested_transaction_suppresses_rollback_error (fun k => decide (k = 1))
    (Prog.fail (Error.Database 99)) liveCtx ⟨⟨[], some ([], [])⟩, 0⟩ ([], [])
    (Error.Database 99) (afterSavepoint ⟨⟨[], some ([], [])⟩, 0⟩ ([], [])) []
    rfl rfl rfl rfl

/-- Claim C10: when the body run under `with_nested_transaction` returns
`Ok v` but the subsequent release-savepoint statement fails, the run returns
the release statement's own database error (the successful value `v` is
discarded) and the runner attempts no rollback-to-savepoint statement: its
trace is the savepoint statement, the body's statements, and the one failed
release statement. -/
theorem with_nested_transaction_release_failure (o : Nat → Bool)
    (inner : Prog) (ctx : TransactionContext) (s : ExecState)
    (pd : List Nat × List (String × Nat)) (v : Nat) (s2 : ExecState)
    (δb : List Action)
    (hc : ctx.tx = some ()) (hp : s.db.pending = some pd)
    (hb : o s.clock = false)
    (h1 : interp o inner ctx (afterSavepoint s pd) = (Except.ok v, s2, δb))
    (hrel : o s2.clock = true) :
    with_nested_transaction o inner ctx s
      = (Except.error (Error.Database s2.clock), ⟨s2.db, s2.clock + 1⟩,
         Action.savepoint spName :: δb ++ [Action.release spName]) := by
  rw [wnt_eq_ok o inner ctx s pd v s2 δb hc hp hb h1]
  have h2 : runStmt o (Action.release spName) s2
      = (Except.error s2.clock, ⟨s2.db, s2.clock + 1⟩,
         [Action.release spName]) := by
    simp [runStmt, hrel]
  rw [h2]

theorem with_nested_transaction_release_failure_witness :
    with_nested_transaction (fun k => decide (k = 1)) (Prog.ret 5) liveCtx
        ⟨⟨[], some ([], [])⟩, 0⟩
      = (Except.error (Error.Database 1),
         ⟨(afterSavepoint ⟨⟨[], some ([], [])⟩, 0⟩ ([], [])).db, 2⟩,
         Action.savepoint spName :: [] ++ [Action.release spName]) :=
  with_nested_transaction_release_failure (fun k => decide (k = 1))
    (Prog.ret 5) liveCtx ⟨⟨[], some ([], [])⟩, 0⟩ ([], []) 5
    (afterSavepoint ⟨⟨[], some ([], [])⟩, 0⟩ ([], [])) [] rfl rfl rfl rfl rfl

/-- Claim C4: when the body run under `with_nested_transaction` fails, the
enclosing transaction survives: the committed data is untouched, the
transaction is still open, the statements `p0` the enclosing transaction had
issued before the nested call are still, unchanged, the front of the pending
list (so the rollback-to-savepoint discarded at most statements issued since
the savepoint), and for any statements `later` the enclosing body issues
after the call, a successful commit of the enclosing transaction makes all of
`p0`, the surviving nested-scope remainder and `later` durable. -/
theorem with_nested_transaction_frame (o : Nat → Bool) (inner : Prog)
    (ctx : TransactionContext) (s : ExecState) (p0 : List Nat)
    (sps0 : List (String × Nat)) (e : Error) (s' : ExecState)
    (δ : List Action)
    (hc : ctx.tx = some ()) (hp : s.db.pending = some (p0, sps0))
    (hrun : with_nested_transaction o inner ctx s = (Except.error e, s', δ)) :
    s'.db.committed = s.db.committed
    ∧ ∃ extra sps1, s'.db.pending = some (p0 ++ extra, sps1)
      ∧ ∀ later, applyStmt (execQueries later s'.db) Action.commitTx
          = some ⟨s.db.committed ++ ((p0 ++ extra) ++ later), none⟩ := by
  suffices h : s'.db.committed = s.db.committed
      ∧ ∃ extra sps1, s'.db.pending = some (p0 ++ extra, sps1) by
    obtain ⟨hcm, extra, sps1, hpend⟩ := h
    refine ⟨hcm, extra, sps1, hpend, ?_⟩
    intro later
    rw [execQueries_pending later s'.db (p0 ++ extra) sps1 hpend]
    simp [applyStmt, hcm]
  cases hb : o s.clock with
  | true =>
    rw [wnt_eq_savefail o inner ctx s hc hb] at hrun
    have hs' : s' = ⟨s.db, s.clock + 1⟩ :=
      (congrArg (fun t => t.2.1) hrun).symm
    subst hs'
    exact ⟨rfl, [], sps0, by simp [hp]⟩
  | false =>
    rcases h1 : interp o inner ctx (afterSavepoint s (p0, sps0)) with ⟨r1, s2, δb⟩
    have hInv1 : Inv p0 s.db.committed (afterSavepoint s (p0, sps0)).db := by
      refine ⟨rfl, [], spReplace spName p0.length sps0,
        by simp [afterSavepoint], ?_⟩
      intro q hq hqn
      have hqk := spReplace_mem spName p0.length sps0 q hq hqn
      exact le_of_eq hqk.symm
    have hInv2 : Inv p0 s.db.committed s2.db := by
      have := Inv_interp o inner ctx (afterSavepoint s (p0, sps0)) p0
        s.db.committed hInv1
      rw [h1] at this
      simpa using this
    cases r1 with
    | ok v =>
      rw [wnt_eq_ok o inner ctx s (p0, sps0) v s2 δb hc hp hb h1] at hrun
      rcases h2 : runStmt o (Action.release spName) s2 with ⟨r2, s3, δ2⟩
      rw [h2] at hrun
      have hInv3 : Inv p0 s.db.committed s3.db := by
        have := Inv_runStmt p0 s.db.committed o (Action.release spName) s2 hInv2
          (fun db1 heq =>
            Inv_applyStmt_release p0 s.db.committed s2.db db1 spName hInv2 heq)
        rw [h2] at this
        exact this
      cases r2 with
      | ok u => simp at hrun
      | error n =>
        have hs' : s' = s3 := (congrArg (fun t => t.2.1) hrun).symm
        subst hs'
        obtain ⟨hcm, extra, sps1, hpend, _⟩ := hInv3
        exact ⟨hcm, extra, sps1, hpend⟩
    | error e1 =>
      rw [wnt_eq_err o inner ctx s (p0, sps0) e1 s2 δb hc hp hb h1] at hrun
      have hs' : s' = (runStmt o (Action.rollbackTo spName) s2).2.1 :=
        (congrArg (fun t => t.2.1) hrun).symm
      have hInv3 : Inv p0 s.db.committed
          ((runStmt o (Action.rollbackTo spName) s2).2.1).db :=
        Inv_runStmt p0 s.db.committed o (Action.rollbackTo spName) s2 hInv2
          (fun db1 heq =>
            Inv_applyStmt_rollbackTo p0 s.db.committed s2.db db1 hInv2 heq)
      rw [hs']
      obtain ⟨hcm, extra, sps1, hpend, _⟩ := hInv3
      exact ⟨hcm, extra, sps1, hpend⟩

theorem with_nested_transaction_frame_witness :
    (⟨⟨[], some ([1], [(spName, 1)])⟩, 3⟩ : ExecState).db.committed
        = (⟨⟨[], some ([1], [])⟩, 0⟩ : ExecState).db.committed
    ∧ ∃ extra sps1,
        (⟨⟨[], some ([1], [(spName, 1)])⟩, 3⟩ : ExecState).db.pending
          = some ([1] ++ extra, sps1)
        ∧ ∀ later,
            applyStmt
              (execQueries later
                (⟨⟨[], some ([1], [(spName, 1)])⟩, 3⟩ : ExecState).db)
              Action.commitTx
              = some ⟨(⟨⟨[], some ([1], [])⟩, 0⟩ : ExecState).db.committed
                  ++ (([1] ++ extra) ++ later), none⟩ :=
  with_nested_transaction_frame (fun _ => false)
    (Prog.query 2 (Prog.fail (Error.Database 77))) liveCtx
    ⟨⟨[], some ([1], [])⟩, 0⟩ [1] [] (Error.Database 77)
    ⟨⟨[], some ([1], [(spName, 1)])⟩, 3⟩
    [Action.savepoint spName, Action.query 2, Action.rollbackTo spName]
    rfl rfl rfl

/-- Counterexample to claim C8 as stated: `commit` and `rollback` invoked on
an already consumed context (handle `none`) silently return `Ok` and attempt
no statement — even under an oracle failing every statement — instead of
failing with the consumed-context error, because context.rs:85–90 and
context.rs:115–120 fall through `if let Some(tx) = self.tx.take()` to
`Ok(())`. -/
theorem commit_on_consumed_silently_ok :
    TransactionContext.commit (fun _ => true) ⟨none⟩ ⟨⟨[], none⟩, 0⟩
      = (Except.ok (), ⟨⟨[], none⟩, 0⟩, [])
    ∧ TransactionContext.rollback (fun _ => true) ⟨none⟩ ⟨⟨[], none⟩, 0⟩
      = (Except.ok (), ⟨⟨[], none⟩, 0⟩, []) :=
  ⟨rfl, rfl⟩

/-- Claim C8 (amended): on a context already consumed by commit or rollback,
invoking `as_executor` or `into_inner` always fails with the consumed-context
error (`AlreadyConsumed`, the modelled panic) and never silently succeeds;
`commit` and `rollback` themselves — which callers cannot re-invoke, since
they consume the context by move — are silent no-ops in the implementation,
returning `Ok` and attempting no statement rather than failing with
`ConsumedError`. -/
theorem consumed_context_operations (ctx : TransactionContext)
    (h : ctx.tx = none) :
    TransactionContext.as_executor ctx = Except.error Error.AlreadyConsumed
    ∧ TransactionContext.into_inner ctx = Except.error Error.AlreadyConsumed
    ∧ ∀ (o : Nat → Bool) (s : ExecState),
        TransactionContext.commit o ctx s = (Except.ok (), s, [])
        ∧ TransactionContext.rollback o ctx s = (Except.ok (), s, []) := by
  refine ⟨?_, ?_, ?_⟩
  · simp [TransactionContext.as_executor, h]
  · simp [TransactionContext.into_inner, h]
  · intro o s
    constructor
    · simp [TransactionContext.commit, h]
    · simp [TransactionContext.rollback, h]

theorem consumed_context_operations_witness :
    TransactionContext.as_executor ⟨none⟩ = Except.error Error.AlreadyConsumed
    ∧ TransactionContext.into_inner ⟨none⟩ = Except.error Error.AlreadyConsumed
    ∧ ∀ (o : Nat → Bool) (s : ExecState),
        TransactionContext.commit o ⟨none⟩ s = (Except.ok (), s, [])
        ∧ TransactionContext.rollback o ⟨none⟩ s = (Except.ok (), s, []) :=
  consumed_context_operations ⟨none⟩ rfl

/-- Claim C9: every context produced by a successful begin holds a present
(`some`) transaction handle, hence the consumed-context panic branch of
`as_executor` is unreachable for it and `as_executor` totally returns the
executor handle.  In the source, commit, rollback and into_inner take the
context by value, so a context obtained from begin and not yet consumed by
one of them is exactly the unchanged begin result modelled here. -/
theorem begin_yields_live_context (o : Nat → Bool) (s : ExecState)
    (ctx : TransactionContext)
    (h : (TransactionContext.begin o s).1 = Except.ok ctx) :
    ctx.tx = some () ∧ TransactionContext.as_executor ctx = Except.ok () := by
  unfold TransactionContext.begin at h
  rcases h0 : runStmt o Action.beginTx s with ⟨r0, s1, δ0⟩
  rw [h0] at h
  cases r0 with
  | ok u =>
    have h2 : (⟨some ()⟩ : TransactionContext) = ctx := Except.ok.inj h
    rw [← h2]
    exact ⟨rfl, rfl⟩
  | error n => exact Except.noConfusion h

theorem begin_yields_live_context_witness :
    liveCtx.tx = some ()
    ∧ TransactionContext.as_executor liveCtx = Except.ok () :=
  begin_yields_live_context (fun _ => false) ⟨⟨[], none⟩, 0⟩ liveCtx rfl

end SqlxTxm
